import Mathlib

/-!
Verification of the recursive repository analysis engine of
`Ask-to-Github-Repo` against its natural-language specification.

The unified core implementation lives in `helper.py`
(class `RepositoryAnalyzer`: `detect_language`, `extract_code_attributes`,
`analyze_file`, `analyze_folder`) and `chatbot.py`
(`RepoChatbot._flatten_analysis`).  The development below is a shallow
embedding of those functions:

* Python dictionaries with optional keys are embedded as structures with
  `Option` fields (a missing key is `none`).
* Python strings are embedded as Lean `String`; the slice `s[:n]` is
  `strTake s n` (the first `n` characters).
* The filesystem is an explicit tree (`FS`): each node records whether the
  `os.access(path, os.R_OK)` probe succeeds, and each file records the
  outcome of `open(...).read()` as `Except String String` (the `error`
  case holds `str(e)` of the raised exception).
* The LLM chains (`goal_chain.ainvoke` / `summary_chain.ainvoke`) are an
  external oracle: a pair of functions returning `Except String String`
  (the `error` case models the call raising an exception).
  `asyncio.gather` re-raises the exception of a failed task, embedded by
  the `Except` monad; for result collection `asyncio.gather` returns the
  results in argument order (not completion order), embedded by an
  order-preserving list traversal.
* `ast.parse` is external: a function `String → Except Unit (List PyNode)`
  whose `error` case models `SyntaxError` and whose `ok` case yields the
  nodes of `ast.walk` in walk order.
* `re.findall` for the keyword-then-identifier patterns of the source is
  implemented concretely (`findallKw`); the JS/HTML patterns, used by no
  claim, stay abstract fields of the extraction environment.
* Side effects relevant to the claims are returned explicitly: the list of
  oracle invocations (`calls`) and the printed skip diagnostics (`diags`).
-/

/-! ## String utilities (models of `os.path` helpers and Python slicing) -/

/-- Model of Python `s[:n]`: the first `n` characters of `s`. -/
def strTake (s : String) (n : Nat) : String :=
  String.mk (s.data.take n)

/-- Model of `os.path.basename`: the part of the path after the last `/`. -/
def basename (p : String) : String :=
  String.mk ((p.data.reverse.takeWhile (fun c => c ≠ '/')).reverse)

/-- Model of `os.path.join(path, item)` for a relative `item`. -/
def pathJoin (p item : String) : String :=
  p ++ "/" ++ item

/-- Model of `os.path.splitext(p)[1]`: the final extension of the last path
component, where leading dots of the component do not begin an extension. -/
def extOf (p : String) : String :=
  let b := (basename p).data
  let rest := b.dropWhile (fun c => c = '.')
  if rest.contains '.' then
    String.mk ('.' :: (rest.reverse.takeWhile (fun c => c ≠ '.')).reverse)
  else ""

/-- Model of `str.lower` restricted to ASCII, as applied to extensions. -/
def strLower (s : String) : String :=
  String.mk (s.data.map Char.toLower)

/-- The proposition that `s` is an initial segment of `t`
(`s` followed by some remainder equals `t`). -/
def headSegment (s t : String) : Prop :=
  ∃ r, t = s ++ r

/-- A strict (proper) initial segment: an initial segment different from
the whole string. -/
def strictHeadSegment (s t : String) : Prop :=
  headSegment s t ∧ s ≠ t

theorem strTake_headSegment (s : String) (n : Nat) :
    headSegment (strTake s n) s := by
  refine ⟨String.mk (s.data.drop n), ?_⟩
  show s = String.mk (s.data.take n ++ s.data.drop n)
  rw [List.take_append_drop]

theorem strTake_length (s : String) (n : Nat) :
    (strTake s n).length = min n s.length := by
  show (s.data.take n).length = min n s.data.length
  exact List.length_take n s.data

theorem strTake_of_length_le (s : String) (n : Nat) (h : s.length ≤ n) :
    strTake s n = s := by
  show String.mk (s.data.take n) = s
  rw [List.take_of_length_le h]

theorem strTake_ne_of_lt_length (s : String) (n : Nat) (h : n < s.length) :
    strTake s n ≠ s := by
  intro he
  have hl : (strTake s n).length = s.length := by rw [he]
  rw [strTake_length] at hl
  omega

theorem strTake_strTake (s : String) (m n : Nat) :
    strTake (strTake s m) n = strTake s (min n m) := by
  show String.mk ((s.data.take m).take n) = String.mk (s.data.take (min n m))
  rw [List.take_take]

/-! ## Sorted deduplication: model of Python `sorted(set(xs))` for strings

Python compares strings lexicographically by code point; `charListLt`
implements exactly that comparison on the character lists underlying
Lean strings. -/

/-- Lexicographic strict comparison of character lists by code point,
the comparison Python's `sorted` uses on `str`. -/
def charListLt : List Char → List Char → Bool
  | [], [] => false
  | [], _ :: _ => true
  | _ :: _, [] => false
  | a :: as, b :: bs =>
    if a < b then true
    else if b < a then false
    else charListLt as bs

/-- Boolean strict order on strings (Python `a < b` on `str`). -/
def strLtB (a b : String) : Bool :=
  charListLt a.data b.data

/-- Propositional form of `strLtB`. -/
def strLtP (a b : String) : Prop :=
  strLtB a b = true

instance (a b : String) : Decidable (strLtP a b) :=
  inferInstanceAs (Decidable (strLtB a b = true))

theorem charListLt_irrefl (l : List Char) : charListLt l l = false := by
  induction l with
  | nil => rfl
  | cons a as ih => simp [charListLt, lt_irrefl, ih]

theorem charListLt_asymm {l₁ l₂ : List Char} (h : charListLt l₁ l₂ = true) :
    charListLt l₂ l₁ = false := by
  induction l₁ generalizing l₂ with
  | nil =>
    cases l₂ with
    | nil => simp [charListLt] at h
    | cons b bs => rfl
  | cons a as ih =>
    cases l₂ with
    | nil => simp [charListLt] at h
    | cons b bs =>
      by_cases hab : a < b
      · simp [charListLt, hab, asymm hab, lt_asymm hab]
      · by_cases hba : b < a
        · simp [charListLt, hab, hba] at h
        · simp only [charListLt, if_neg hab, if_neg hba] at h
          simp only [charListLt, if_neg hba, if_neg hab]
          exact ih h

theorem charListLt_conn {l₁ l₂ : List Char} (h₁ : charListLt l₁ l₂ = false)
    (h₂ : charListLt l₂ l₁ = false) : l₁ = l₂ := by
  induction l₁ generalizing l₂ with
  | nil =>
    cases l₂ with
    | nil => rfl
    | cons b bs => simp [charListLt] at h₁
  | cons a as ih =>
    cases l₂ with
    | nil => simp [charListLt] at h₂
    | cons b bs =>
      by_cases hab : a < b
      · simp [charListLt, hab] at h₁
      · by_cases hba : b < a
        · simp [charListLt, hba, hab] at h₂
        · have : a = b := le_antisymm (not_lt.mp hba) (not_lt.mp hab)
          subst this
          simp only [charListLt, if_neg hab, if_neg hba] at h₁ h₂
          rw [ih h₁ h₂]

theorem charListLt_trans {l₁ l₂ l₃ : List Char} (h₁ : charListLt l₁ l₂ = true)
    (h₂ : charListLt l₂ l₃ = true) : charListLt l₁ l₃ = true := by
  induction l₁ generalizing l₂ l₃ with
  | nil =>
    cases l₃ with
    | nil =>
      cases l₂ with
      | nil => simp [charListLt] at h₁
      | cons b bs => simp [charListLt] at h₂
    | cons c cs => rfl
  | cons a as ih =>
    cases l₂ with
    | nil => simp [charListLt] at h₁
    | cons b bs =>
      cases l₃ with
      | nil => simp [charListLt] at h₂
      | cons c cs =>
        by_cases hab : a < b
        · by_cases hbc : b < c
          · simp [charListLt, lt_trans hab hbc]
          · by_cases hcb : c < b
            · simp [charListLt, hbc, hcb] at h₂
            · have : b = c := le_antisymm (not_lt.mp hcb) (not_lt.mp hbc)
              subst this
              simp [charListLt, hab]
        · by_cases hba : b < a
          · simp [charListLt, hab, hba] at h₁
          · have : a = b := le_antisymm (not_lt.mp hba) (not_lt.mp hab)
            subst this
            simp only [charListLt, if_neg hab, if_neg hba] at h₁
            by_cases hbc : a < c
            · simp [charListLt, hbc]
            · by_cases hcb : c < a
              · simp [charListLt, hbc, hcb] at h₂
              · simp only [charListLt, if_neg hbc, if_neg hcb] at h₂ ⊢
                exact ih h₁ h₂

theorem strLtP_irrefl (a : String) : ¬ strLtP a a := by
  intro h
  rw [strLtP, strLtB, charListLt_irrefl] at h
  cases h

theorem strLtP_asymm {a b : String} (h : strLtP a b) : ¬ strLtP b a := by
  intro h2
  rw [strLtP, strLtB] at h h2
  rw [charListLt_asymm h] at h2
  cases h2

theorem strLtP_trans {a b c : String} (h₁ : strLtP a b) (h₂ : strLtP b c) :
    strLtP a c :=
  charListLt_trans h₁ h₂

theorem strLtP_conn {a b : String} (h₁ : ¬ strLtP a b) (h₂ : ¬ strLtP b a) :
    a = b := by
  rw [strLtP, strLtB, Bool.not_eq_true] at h₁ h₂
  have : a.data = b.data := charListLt_conn h₁ h₂
  cases a; cases b
  exact congrArg String.mk this

/-- Insert a string into a `strLtP`-sorted, duplicate-free list, keeping
it sorted and duplicate-free. -/
def insertSortedDedup (a : String) : List String → List String
  | [] => [a]
  | b :: t =>
    if a = b then b :: t
    else if strLtB a b then a :: b :: t
    else b :: insertSortedDedup a t

/-- Model of Python `sorted(set(xs))` for a list of strings: the unique
strictly `strLtP`-sorted list with the same members as `xs`. -/
def sortedDedup (l : List String) : List String :=
  l.foldr insertSortedDedup []

theorem mem_insertSortedDedup (a x : String) (l : List String) :
    x ∈ insertSortedDedup a l ↔ x = a ∨ x ∈ l := by
  induction l with
  | nil => simp [insertSortedDedup]
  | cons b t ih =>
    by_cases h1 : a = b
    · subst h1
      simp only [insertSortedDedup, if_pos rfl]
      constructor
      · intro h; exact Or.inr h
      · rintro (rfl | h)
        · exact List.mem_cons_self _ _
        · exact h
    · by_cases h2 : strLtB a b = true
      · simp [insertSortedDedup, h1, h2]
      · simp only [insertSortedDedup, if_neg h1, h2, if_false, Bool.false_eq_true,
          List.mem_cons, ih]
        tauto

theorem sorted_nodup_insertSortedDedup (a : String) (l : List String)
    (hs : l.Sorted strLtP) (hn : l.Nodup) :
    (insertSortedDedup a l).Sorted strLtP ∧ (insertSortedDedup a l).Nodup := by
  induction l with
  | nil => simp [insertSortedDedup]
  | cons b t ih =>
    have hs' : t.Sorted strLtP := hs.of_cons
    have hn' : t.Nodup := hn.of_cons
    obtain ⟨ihs, ihn⟩ := ih hs' hn'
    by_cases h1 : a = b
    · subst h1
      simp only [insertSortedDedup, if_pos rfl]
      exact ⟨hs, hn⟩
    · by_cases h2 : strLtB a b = true
      · have h2' : strLtP a b := h2
        constructor
        · simp only [insertSortedDedup, if_neg h1, if_pos h2]
          refine List.sorted_cons.mpr ⟨?_, hs⟩
          intro x hx
          rcases List.mem_cons.mp hx with rfl | hx
          · exact h2'
          · exact strLtP_trans h2' (List.rel_of_sorted_cons hs x hx)
        · simp only [insertSortedDedup, if_neg h1, if_pos h2]
          refine List.nodup_cons.mpr ⟨?_, hn⟩
          intro hmem
          rcases List.mem_cons.mp hmem with rfl | hx
          · exact h1 rfl
          · exact strLtP_asymm h2' (List.rel_of_sorted_cons hs a hx)
      · have hba : strLtP b a := by
          by_contra hba
          exact h1 (strLtP_conn h2 hba)
        constructor
        · simp only [insertSortedDedup, if_neg h1, h2, if_false, Bool.false_eq_true]
          refine List.sorted_cons.mpr ⟨?_, ihs⟩
          intro x hx
          rcases (mem_insertSortedDedup a x t).mp hx with rfl | hx
          · exact hba
          · exact List.rel_of_sorted_cons hs x hx
        · simp only [insertSortedDedup, if_neg h1, h2, if_false, Bool.false_eq_true]
          refine List.nodup_cons.mpr ⟨?_, ihn⟩
          intro hmem
          rcases (mem_insertSortedDedup a b t).mp hmem with h | hx
          · exact h1 h.symm
          · exact (List.nodup_cons.mp hn).1 hx

theorem sortedDedup_sorted_nodup (l : List String) :
    (sortedDedup l).Sorted strLtP ∧ (sortedDedup l).Nodup := by
  induction l with
  | nil => simp [sortedDedup]
  | cons a t ih =>
    have : sortedDedup (a :: t) = insertSortedDedup a (sortedDedup t) := rfl
    rw [this]
    exact sorted_nodup_insertSortedDedup a (sortedDedup t) ih.1 ih.2

theorem mem_sortedDedup (x : String) (l : List String) :
    x ∈ sortedDedup l ↔ x ∈ l := by
  induction l with
  | nil => simp [sortedDedup]
  | cons a t ih =>
    have : sortedDedup (a :: t) = insertSortedDedup a (sortedDedup t) := rfl
    rw [this, mem_insertSortedDedup, ih]
    simp

theorem eq_of_sorted_strLt {l₁ l₂ : List String} (h₁ : l₁.Sorted strLtP)
    (h₂ : l₂.Sorted strLtP) (hm : ∀ a, a ∈ l₁ ↔ a ∈ l₂) : l₁ = l₂ := by
  induction l₁ generalizing l₂ with
  | nil =>
    cases l₂ with
    | nil => rfl
    | cons b t₂ => exact absurd ((hm b).mpr (List.mem_cons_self b t₂)) (by simp)
  | cons a t₁ ih =>
    cases l₂ with
    | nil => exact absurd ((hm a).mp (List.mem_cons_self a t₁)) (by simp)
    | cons b t₂ =>
      have hab : a = b := by
        rcases List.mem_cons.mp ((hm a).mp (List.mem_cons_self a t₁)) with h | hat₂
        · exact h
        · rcases List.mem_cons.mp ((hm b).mpr (List.mem_cons_self b t₂)) with h | hbt₁
          · exact h.symm
          · exact absurd (List.rel_of_sorted_cons h₁ b hbt₁)
              (strLtP_asymm (List.rel_of_sorted_cons h₂ a hat₂))
      subst hab
      have htails : ∀ x, x ∈ t₁ ↔ x ∈ t₂ := by
        intro x
        constructor
        · intro hx
          rcases List.mem_cons.mp ((hm x).mp (List.mem_cons.mpr (Or.inr hx))) with h | h
          · subst h
            exact absurd (List.rel_of_sorted_cons h₁ x hx) (strLtP_irrefl x)
          · exact h
        · intro hx
          rcases List.mem_cons.mp ((hm x).mpr (List.mem_cons.mpr (Or.inr hx))) with h | h
          · subst h
            exact absurd (List.rel_of_sorted_cons h₂ x hx) (strLtP_irrefl x)
          · exact h
      rw [ih h₁.of_cons h₂.of_cons htails]

theorem sortedDedup_eq_of_perm {l₁ l₂ : List String} (h : List.Perm l₁ l₂) :
    sortedDedup l₁ = sortedDedup l₂ := by
  refine eq_of_sorted_strLt (sortedDedup_sorted_nodup l₁).1
    (sortedDedup_sorted_nodup l₂).1 ?_
  intro a
  rw [mem_sortedDedup, mem_sortedDedup]
  exact ⟨fun hm => h.mem_iff.mp hm, fun hm => h.mem_iff.mpr hm⟩

/-! ## Concrete model of `re.findall` for the keyword patterns

The fallback and generic patterns of `extract_code_attributes` all have
the shape `(?:kw1|kw2|...)\s+([CLASS1][CLASS2]*)` (or `[CLASS]+`): a
keyword alternation, at least one whitespace character, and a captured
character run.  `findallKw` implements `re.findall` for exactly this
shape: left-to-right scan, alternatives tried in order, non-overlapping
matches, the scan resuming after the end of each full match. -/

/-- Characters matched by the regex class `\s`. -/
def isSpaceChar (c : Char) : Bool :=
  c = ' ' || c = '\t' || c = '\n' || c = '\r' || c = '\x0B' || c = '\x0C'

/-- Characters matched by `[a-zA-Z_]` (ASCII, as in the source patterns). -/
def isIdentFirst (c : Char) : Bool :=
  c.isAlpha || c = '_'

/-- Characters matched by `[a-zA-Z0-9_]`. -/
def isIdentRest (c : Char) : Bool :=
  c.isAlphanum || c = '_'

/-- Characters matched by `[a-zA-Z0-9_\.]`. -/
def isDottedChar (c : Char) : Bool :=
  c.isAlphanum || c = '_' || c = '.'

/-- Characters matched by `[a-zA-Z0-9_\./]`. -/
def isDottedSlashChar (c : Char) : Bool :=
  c.isAlphanum || c = '_' || c = '.' || c = '/'

/-- Capture `([first][rest]*)` at the head of `cs`: the captured string and
the remainder of the input after it. -/
def takeCapture (first rest : Char → Bool) : List Char → Option (String × List Char)
  | [] => none
  | c :: cs =>
    if first c then
      let tail := cs.takeWhile rest
      some (String.mk (c :: tail), cs.drop tail.length)
    else none

/-- Try to match one keyword alternative followed by `\s+` and a capture at
the head of `cs`. -/
def matchKeyword (kw : List Char) (first rest : Char → Bool) (cs : List Char) :
    Option (String × List Char) :=
  if kw.isPrefixOf cs then
    let afterKw := cs.drop kw.length
    let ws := afterKw.takeWhile isSpaceChar
    if ws.isEmpty then none
    else takeCapture first rest (afterKw.drop ws.length)
  else none

/-- Try the keyword alternatives in pattern order at the head of `cs`. -/
def matchAnyKeyword (kws : List (List Char)) (first rest : Char → Bool)
    (cs : List Char) : Option (String × List Char) :=
  match kws with
  | [] => none
  | kw :: more =>
    match matchKeyword kw first rest cs with
    | some r => some r
    | none => matchAnyKeyword more first rest cs

/-- Left-to-right scan collecting non-overlapping matches; `fuel` bounds the
number of scan steps (each step consumes at least one character, so an
initial fuel of the input length is exact). -/
def findallAux (kws : List (List Char)) (first rest : Char → Bool) :
    Nat → List Char → List String
  | 0, _ => []
  | _ + 1, [] => []
  | fuel + 1, c :: cs =>
    match matchAnyKeyword kws first rest (c :: cs) with
    | some (name, remaining) => name :: findallAux kws first rest fuel remaining
    | none => findallAux kws first rest fuel cs

/-- Model of `re.findall(r"(?:kw1|kw2|...)\s+([first][rest]*)", s)`. -/
def findallKw (kws : List String) (first rest : Char → Bool) (s : String) :
    List String :=
  findallAux (kws.map (fun k => k.data)) first rest s.data.length s.data

/-! ## Attribute extraction (`RepositoryAnalyzer.extract_code_attributes`) -/

/-- Nodes yielded by `ast.walk` that the extractor inspects, in walk order.
`importNames` carries `[alias.name for alias in node.names]` of an
`ast.Import` / `ast.ImportFrom` node. -/
inductive PyNode where
  | functionDef (name : String)
  | asyncFunctionDef (name : String)
  | classDef (name : String)
  | importNames (names : List String)
  | otherNode
deriving Repr, DecidableEq

/-- External collaborators of the extractor: the loaded
`language_map.json` table, `ast.parse` (whose `error` case models a
`SyntaxError`, its `ok` case the `ast.walk` node sequence), and
`re.findall` for the JS-family and markup patterns of
`_extract_js_like` / `_extract_html_like`, which do not have the simple
keyword shape. -/
structure ExtractEnv where
  languageMap : List (String × String)
  parsePy : String → Except Unit (List PyNode)
  jsFuncMatches : String → List String
  jsClassMatches : String → List String
  jsImportMatches : String → List String
  htmlClassMatches : String → List String
  htmlLinkMatches : String → List String

/-- Model of `RepositoryAnalyzer.detect_language`:
`self.language_map.get(os.path.splitext(file_path)[1].lower(), "Unknown")`. -/
def detect_language (env : ExtractEnv) (path : String) : String :=
  ((env.languageMap.lookup (strLower (extOf path)))).getD "Unknown"

/-- Loop body of `_extract_python` over the `ast.walk` sequence: functions,
classes and imports collected in walk order. -/
def pyWalkCollect : List PyNode → List String × List String × List String
  | [] => ([], [], [])
  | node :: rest =>
    let r := pyWalkCollect rest
    match node with
    | .functionDef n => (n :: r.1, r.2.1, r.2.2)
    | .asyncFunctionDef n => (n :: r.1, r.2.1, r.2.2)
    | .classDef n => (r.1, n :: r.2.1, r.2.2)
    | .importNames ns => (r.1, r.2.1, ns ++ r.2.2)
    | .otherNode => r

/-- The `except SyntaxError` branch of `_extract_python`:
`re.findall(r"def\s+([a-zA-Z_][a-zA-Z0-9_]*)", code)`,
`re.findall(r"class\s+([a-zA-Z_][a-zA-Z0-9_]*)", code)`,
`re.findall(r"(?:import|from)\s+([a-zA-Z0-9_\.]+)", code)`. -/
def python_fallback (code : String) : List String × List String × List String :=
  (findallKw ["def"] isIdentFirst isIdentRest code,
   findallKw ["class"] isIdentFirst isIdentRest code,
   findallKw ["import", "from"] isDottedChar isDottedChar code)

/-- Model of `_extract_python`: parse with `ast.parse` and walk the tree;
on `SyntaxError`, fall back to the pattern heuristics. -/
def extract_python (env : ExtractEnv) (code : String) :
    List String × List String × List String :=
  match env.parsePy code with
  | .ok nodes => pyWalkCollect nodes
  | .error _ => python_fallback code

/-- The `(f, c, i)` triple of `extract_code_attributes` before the final
`sorted(set(...))` is applied, following the language dispatch of the
source. -/
def raw_extract (env : ExtractEnv) (code language : String) :
    List String × List String × List String :=
  if language = "Python" then
    extract_python env code
  else if language ∈ ["JavaScript", "TypeScript", "React (JavaScript)", "React (TypeScript)"] then
    (env.jsFuncMatches code, env.jsClassMatches code, env.jsImportMatches code)
  else if language ∈ ["HTML", "CSS"] then
    ([], env.htmlClassMatches code, env.htmlLinkMatches code)
  else
    (findallKw ["def", "function", "proc", "fn"] isIdentFirst isIdentRest code,
     findallKw ["class"] (fun c => c.isUpper) isIdentRest code,
     findallKw ["import", "include"] isDottedSlashChar isDottedSlashChar code)

/-- Model of `RepositoryAnalyzer.extract_code_attributes`: the dispatched
raw extraction followed by `sorted(set(f)), sorted(set(c)), sorted(set(i))`. -/
def extract_code_attributes (env : ExtractEnv) (code language : String) :
    List String × List String × List String :=
  let r := raw_extract env code language
  (sortedDedup r.1, sortedDedup r.2.1, sortedDedup r.2.2)

/-! ## Data model: analysis nodes, filesystem trees, oracle, walk output -/

/-- The dictionary returned by `RepositoryAnalyzer.analyze_file`, with one
`Option` field per possible key (a missing key is `none`).  The read-error
return is `{"file_path": path, "error": str(e)}`; the success return
populates every field except `error`. -/
structure FileNode where
  file_path : String
  language : Option String := none
  functions : Option (List String) := none
  classes : Option (List String) := none
  dependencies : Option (List String) := none
  goal : Option String := none
  summary : Option String := none
  file_content : Option String := none
  error : Option String := none
deriving Repr, DecidableEq

mutual
/-- Result tree of the walk: either an `analyze_file` dictionary or an
`analyze_folder` dictionary `{"folder_path": ..., "children": ...}`.  The
`summary` field models an optional `"summary"` key on a folder dictionary
(the spec's FolderNode summary); the source code never writes that key,
so the walker below always constructs it as `none`. -/
inductive AnalysisNode where
  | file (node : FileNode)
  | folder (folder_path : String) (children : NodeList) (summary : Option String)

/-- Children sequence of a folder node. -/
inductive NodeList where
  | nil
  | cons (head : AnalysisNode) (tail : NodeList)
end

/-- Convert a children sequence to a plain list. -/
def NodeList.toList : NodeList → List AnalysisNode
  | .nil => []
  | .cons h t => h :: NodeList.toList t

/-- Build a children sequence from a plain list. -/
def NodeList.ofList : List AnalysisNode → NodeList
  | [] => .nil
  | h :: t => .cons h (NodeList.ofList t)

theorem nodeList_toList_ofList (l : List AnalysisNode) :
    (NodeList.ofList l).toList = l := by
  induction l with
  | nil => rfl
  | cons h t ih => simp [NodeList.ofList, NodeList.toList, ih]

/-- The path recorded in a node: `file_path` of a file dictionary,
`folder_path` of a folder dictionary. -/
def nodePath : AnalysisNode → String
  | .file fn => fn.file_path
  | .folder p _ _ => p

mutual
/-- A filesystem entry as the walker observes it.  `readable` is the
outcome of the `os.access(path, os.R_OK)` probe; a file's `content` is the
outcome of `open(path).read()` with the permissive decoding of the source
(`error` holds `str(e)` of a raised exception). -/
inductive FS where
  | file (readable : Bool) (content : Except String String)
  | dir (readable : Bool) (entries : EntryList)

/-- A directory listing in `os.listdir` enumeration order. -/
inductive EntryList where
  | nil
  | cons (name : String) (child : FS) (rest : EntryList)
end

/-- Convert a directory listing to a plain list of (name, entry) pairs. -/
def EntryList.toList : EntryList → List (String × FS)
  | .nil => []
  | .cons n c r => (n, c) :: EntryList.toList r

/-- Build a directory listing from a plain list of (name, entry) pairs. -/
def EntryList.ofList : List (String × FS) → EntryList
  | [] => .nil
  | (n, c) :: r => .cons n c (EntryList.ofList r)

theorem entryList_toList_ofList (l : List (String × FS)) :
    (EntryList.ofList l).toList = l := by
  induction l with
  | nil => rfl
  | cons h t ih =>
    obtain ⟨n, c⟩ := h
    simp [EntryList.ofList, EntryList.toList, ih]

/-- Outcome of the `os.access(child_path, os.R_OK)` probe for an entry. -/
def readableOf : FS → Bool
  | .file r _ => r
  | .dir r _ => r

/-- The fixed exclusion test of `analyze_folder`:
`item in {".git", "node_modules", "__pycache__", ".venv"}`. -/
def excludedName (item : String) : Bool :=
  item = ".git" || item = "node_modules" || item = "__pycache__" || item = ".venv"

/-- An entry survives the access filter: not in the exclusion set and the
read-access probe succeeds. -/
def eligibleEntry (e : String × FS) : Bool :=
  !excludedName e.1 && readableOf e.2

/-- The summarization oracle: `goal_chain.ainvoke` and
`summary_chain.ainvoke` applied to a file's basename and truncated
content.  An `error` result models the call raising an exception. -/
structure Oracle where
  goal : String → String → Except String String
  summary : String → String → Except String String

/-- One oracle invocation issued by the walker.  `folderSummarize` is the
folder-level reduction call described by the specification
(`summarize_folder(folder_name, ordered_child_descriptions)`); it is part
of the vocabulary so that its absence from every trace is expressible. -/
inductive OracleCall where
  | goalCall (filename content : String)
  | summaryCall (filename content : String)
  | folderSummarize (folderName : String) (childDescriptions : List String)
deriving Repr, DecidableEq

/-- Whether a call is the folder-level reduction call. -/
def OracleCall.isFolderCall : OracleCall → Bool
  | .folderSummarize _ _ => true
  | _ => false

/-- Output of one walker invocation: the returned value (or the exception
that propagated out of it), the oracle calls it issued, and the skip
diagnostics it printed. -/
structure WalkOut where
  result : Except String AnalysisNode
  calls : List OracleCall
  diags : List String

/-- Collect the settled child results exactly as awaiting
`tqdm_asyncio.gather` does: all results in task order if every task
succeeded, otherwise the exception of the first failed task. -/
def seqResults : List (Except String AnalysisNode) →
    Except String (List AnalysisNode)
  | [] => .ok []
  | .error e :: _ => .error e
  | .ok n :: rest =>
    match seqResults rest with
    | .error e => .error e
    | .ok ns => .ok (n :: ns)

/-- The diagnostics printed by the listing loop of `analyze_folder`: one
`permission denied` line per entry that passes the name exclusion but
fails the access probe, in enumeration order. -/
def skipDiagList (path : String) : EntryList → List String
  | .nil => []
  | .cons item child rest =>
    if excludedName item then skipDiagList path rest
    else if readableOf child then skipDiagList path rest
    else ("⚠️ Skipping " ++ pathJoin path item ++ ": permission denied.")
      :: skipDiagList path rest

/-- Model of `RepositoryAnalyzer.analyze_file`.  The `try` block covers
only the read: a read exception yields `{"file_path": path, "error":
str(e)}`.  On success the goal and summary chains are invoked through
`asyncio.gather` on the content truncated to 4000 characters; an
exception raised by either chain propagates out of `analyze_file`. -/
def analyze_file (env : ExtractEnv) (o : Oracle) (path : String)
    (readResult : Except String String) : WalkOut :=
  let language := detect_language env path
  match readResult with
  | .error e =>
    { result := .ok (.file { file_path := path, error := some e })
      calls := []
      diags := [] }
  | .ok content =>
    let attrs := extract_code_attributes env content language
    let truncated := strTake content 4000
    let fname := basename path
    { result :=
        match o.goal fname truncated with
        | .error e => .error e
        | .ok goal =>
          match o.summary fname truncated with
          | .error e => .error e
          | .ok summary =>
            .ok (AnalysisNode.file
              { file_path := path
                language := some language
                functions := some attrs.1
                classes := some attrs.2.1
                dependencies := some attrs.2.2
                goal := some goal
                summary := some summary
                file_content := some (strTake content 2000) })
      calls := [.goalCall fname truncated, .summaryCall fname truncated]
      diags := [] }

mutual
/-- Model of `RepositoryAnalyzer.analyze_folder`.  A file path is handed
to `analyze_file`.  For a directory, the listing is filtered by the
exclusion set and the access probe, the surviving entries are analyzed
(concurrently in the source; `gather` reassembles results in enumeration
order), and the folder dictionary `{"folder_path": path, "children":
children}` is built — with no `"summary"` key and no folder-level oracle
call. -/
def analyze_folder (env : ExtractEnv) (o : Oracle) (path : String) :
    FS → WalkOut
  | .file _ readResult => analyze_file env o path readResult
  | .dir _ entries =>
    let outs := analyzeChildren env o path entries
    { result := (seqResults (outs.map (fun w => w.result))).map
        (fun cs => AnalysisNode.folder path (NodeList.ofList cs) none)
      calls := outs.flatMap (fun w => w.calls)
      diags := skipDiagList path entries ++ outs.flatMap (fun w => w.diags) }

/-- The task fan-out of `analyze_folder`: one recursive task per entry
that passes the exclusion test and the access probe, in enumeration
order. -/
def analyzeChildren (env : ExtractEnv) (o : Oracle) (path : String) :
    EntryList → List WalkOut
  | .nil => []
  | .cons item child rest =>
    if excludedName item then analyzeChildren env o path rest
    else if readableOf child then
      analyze_folder env o (pathJoin path item) child
        :: analyzeChildren env o path rest
    else analyzeChildren env o path rest
end

/-! ## Flattening (`RepoChatbot._flatten_analysis`) -/

/-- The document text `_flatten_analysis` builds for one file dictionary:
`f"{node['file_path']}\n{node.get('goal', '')}\n{node.get('summary', '')}"`. -/
def docOf (fn : FileNode) : String :=
  fn.file_path ++ "\n" ++ fn.goal.getD "" ++ "\n" ++ fn.summary.getD ""

mutual
/-- Model of `RepoChatbot._flatten_analysis`: a dictionary with a
`file_path` key contributes one document; otherwise a dictionary with a
`children` key contributes the flattening of its children in order, and
nothing for itself. -/
def flatten_analysis : AnalysisNode → List String
  | .file fn => [docOf fn]
  | .folder _ cs _ => flatten_list cs

/-- The `for c in node["children"]: results.extend(...)` loop. -/
def flatten_list : NodeList → List String
  | .nil => []
  | .cons h t => flatten_analysis h ++ flatten_list t
end

mutual
/-- Specification-side collector: the file dictionaries of a tree in
depth-first order. -/
def fileNodesOf : AnalysisNode → List FileNode
  | .file fn => [fn]
  | .folder _ cs _ => fileNodesList cs

/-- Depth-first file collection over a children sequence. -/
def fileNodesList : NodeList → List FileNode
  | .nil => []
  | .cons h t => fileNodesOf h ++ fileNodesList t
end

mutual
theorem flatten_eq_node : (n : AnalysisNode) →
    flatten_analysis n = (fileNodesOf n).map docOf
  | .file fn => by simp [flatten_analysis, fileNodesOf]
  | .folder p cs s => by
    rw [flatten_analysis, fileNodesOf]
    exact flatten_eq_list cs

theorem flatten_eq_list : (l : NodeList) →
    flatten_list l = (fileNodesList l).map docOf
  | .nil => rfl
  | .cons h t => by
    rw [flatten_list, fileNodesList, List.map_append, flatten_eq_node h,
      flatten_eq_list t]
end

/-- Specification-side predicate: no folder dictionary anywhere in the
tree carries a summary. -/
inductive NoFolderSummary : AnalysisNode → Prop where
  | file (fn : FileNode) : NoFolderSummary (.file fn)
  | folder (p : String) (cs : NodeList)
      (h : ∀ c ∈ cs.toList, NoFolderSummary c) :
      NoFolderSummary (.folder p cs none)

/-! ## Walker lemmas -/

theorem analyzeChildren_eq (env : ExtractEnv) (o : Oracle) (path : String) :
    (es : EntryList) → analyzeChildren env o path es =
      (es.toList.filter eligibleEntry).map
        (fun e => analyze_folder env o (pathJoin path e.1) e.2)
  | .nil => rfl
  | .cons item child rest => by
    have ih := analyzeChildren_eq env o path rest
    by_cases h1 : excludedName item = true
    · simp [analyzeChildren, EntryList.toList, eligibleEntry, h1, ih]
    · by_cases h2 : readableOf child = true
      · simp [analyzeChildren, EntryList.toList, eligibleEntry, h1, h2, ih]
      · simp [analyzeChildren, EntryList.toList, eligibleEntry, h1, h2, ih]

theorem mem_skipDiagList (path : String) :
    (es : EntryList) → ∀ item child, (item, child) ∈ es.toList →
    excludedName item = false → readableOf child = false →
    ("⚠️ Skipping " ++ pathJoin path item ++ ": permission denied.")
      ∈ skipDiagList path es
  | .nil => by intro item child h _ _; simp [EntryList.toList] at h
  | .cons n c rest => by
    intro item child hmem h1 h2
    rcases List.mem_cons.mp hmem with heq | htail
    · injection heq with e1 e2
      subst e1; subst e2
      simp [skipDiagList, h1, h2]
    · have ih := mem_skipDiagList path rest item child htail h1 h2
      by_cases g1 : excludedName n = true
      · simpa [skipDiagList, g1] using ih
      · by_cases g2 : readableOf c = true
        · simpa [skipDiagList, g1, g2] using ih
        · simp [skipDiagList, g1, g2]
          exact Or.inr ih

theorem seqResults_eq_ok (rs : List (Except String AnalysisNode)) :
    ∀ cs : List AnalysisNode,
    (seqResults rs = .ok cs ↔ rs = cs.map Except.ok) := by
  induction rs with
  | nil =>
    intro cs
    cases cs with
    | nil => simp [seqResults]
    | cons c ct => simp [seqResults]
  | cons r rt ih =>
    intro cs
    cases r with
    | error e =>
      cases cs with
      | nil => simp [seqResults]
      | cons c ct => simp [seqResults]
    | ok n =>
      cases cs with
      | nil =>
        simp only [seqResults, List.map_nil]
        constructor
        · intro h
          cases hseq : seqResults rt with
          | error e => rw [hseq] at h; cases h
          | ok ns => rw [hseq] at h; cases h
        · intro h; cases h
      | cons c ct =>
        simp only [seqResults, List.map_cons]
        constructor
        · intro h
          cases hseq : seqResults rt with
          | error e => rw [hseq] at h; cases h
          | ok ns =>
            rw [hseq] at h
            injection h with h
            injection h with hnc hns
            subst hnc
            have := (ih ct).mp (by rw [hseq, hns])
            rw [this]
        · intro h
          injection h with hn ht
          injection hn with hnc
          subst hnc
          rw [(ih ct).mpr ht]

theorem result_path (env : ExtractEnv) (o : Oracle) (path : String) (fs : FS)
    (n : AnalysisNode) (h : (analyze_folder env o path fs).result = .ok n) :
    nodePath n = path := by
  cases fs with
  | file r rr =>
    cases rr with
    | error e =>
      simp only [analyze_folder, analyze_file] at h
      injection h with h
      rw [← h]
      rfl
    | ok content =>
      simp only [analyze_folder, analyze_file] at h
      cases hg : o.goal (basename path) (strTake content 4000) with
      | error e => rw [hg] at h; cases h
      | ok g =>
        rw [hg] at h
        cases hs : o.summary (basename path) (strTake content 4000) with
        | error e =>
          rw [hs] at h
          cases h
        | ok s =>
          rw [hs] at h
          injection h with h
          rw [← h]
          rfl
  | dir r es =>
    simp only [analyze_folder] at h
    cases hseq : seqResults ((analyzeChildren env o path es).map (fun w => w.result)) with
    | error e => rw [hseq] at h; cases h
    | ok cs =>
      rw [hseq] at h
      simp only [Except.map] at h
      injection h with h
      rw [← h]
      rfl

theorem paths_of_results (env : ExtractEnv) (o : Oracle) (path : String) :
    (es : List (String × FS)) → ∀ cs : List AnalysisNode,
    es.map (fun e => (analyze_folder env o (pathJoin path e.1) e.2).result)
      = cs.map Except.ok →
    cs.map nodePath = es.map (fun e => pathJoin path e.1) := by
  intro es
  induction es with
  | nil =>
    intro cs h
    cases cs with
    | nil => rfl
    | cons c ct => simp at h
  | cons e et ih =>
    intro cs h
    cases cs with
    | nil => simp at h
    | cons c ct =>
      simp only [List.map_cons] at h ⊢
      injection h with h1 h2
      rw [result_path env o (pathJoin path e.1) e.2 c h1, ih ct h2]

theorem folder_result_ok (env : ExtractEnv) (o : Oracle) (path : String)
    (r : Bool) (es : EntryList) (q : String) (cs : NodeList) (s : Option String)
    (h : (analyze_folder env o path (.dir r es)).result = .ok (.folder q cs s)) :
    q = path ∧ s = none ∧
    (es.toList.filter eligibleEntry).map
        (fun e => (analyze_folder env o (pathJoin path e.1) e.2).result)
      = cs.toList.map Except.ok := by
  simp only [analyze_folder] at h
  cases hseq : seqResults ((analyzeChildren env o path es).map (fun w => w.result)) with
  | error e => rw [hseq] at h; cases h
  | ok cs0 =>
    rw [hseq] at h
    simp only [Except.map, Except.ok.injEq, AnalysisNode.folder.injEq] at h
    obtain ⟨hq, hcs, hsum⟩ := h
    refine ⟨hq.symm, hsum.symm, ?_⟩
    have hmap : (analyzeChildren env o path es).map (fun w => w.result)
        = cs0.map Except.ok := (seqResults_eq_ok _ cs0).mp hseq
    rw [analyzeChildren_eq env o path es, List.map_map] at hmap
    rw [← hcs, nodeList_toList_ofList]
    exact hmap

theorem str_data_append (s t : String) : (s ++ t).data = s.data ++ t.data := by
  cases s; cases t; rfl

theorem str_append_empty (s : String) : s ++ "" = s := by
  cases s
  show String.mk (_ ++ []) = _
  rw [List.append_nil]

theorem pathJoin_injective (p : String) :
    Function.Injective (fun item => pathJoin p item) := by
  intro a b h
  simp only [pathJoin] at h
  have hd := congrArg String.data h
  rw [str_data_append, str_data_append] at hd
  have : a.data = b.data := List.append_cancel_left hd
  cases a; cases b
  exact congrArg String.mk this

theorem eq_of_keys_nodup :
    ∀ (l : List (String × FS)) (x y : String × FS),
    (l.map Prod.fst).Nodup → x ∈ l → y ∈ l → x.1 = y.1 → x = y := by
  intro l
  induction l with
  | nil => intro x y _ hx; exact absurd hx (by simp)
  | cons a t ih =>
    intro x y hnd hx hy hfst
    rw [List.map_cons, List.nodup_cons] at hnd
    rcases List.mem_cons.mp hx with rfl | hxt
    · rcases List.mem_cons.mp hy with rfl | hyt
      · rfl
      · have : x.1 ∈ t.map Prod.fst := by
          rw [hfst]
          exact List.mem_map_of_mem Prod.fst hyt
        exact absurd this hnd.1
    · rcases List.mem_cons.mp hy with rfl | hyt
      · have : y.1 ∈ t.map Prod.fst := by
          rw [← hfst]
          exact List.mem_map_of_mem Prod.fst hxt
        exact absurd this hnd.1
      · exact ih x y hnd.2 hxt hyt hfst

theorem mem_of_map_ok :
    ∀ (ws : List WalkOut) (cs : List AnalysisNode),
    ws.map (fun w => w.result) = cs.map Except.ok →
    ∀ c ∈ cs, ∃ w ∈ ws, w.result = .ok c := by
  intro ws
  induction ws with
  | nil =>
    intro cs h c hc
    cases cs with
    | nil => exact absurd hc (by simp)
    | cons c0 ct => simp at h
  | cons w wt ih =>
    intro cs h c hc
    cases cs with
    | nil => exact absurd hc (by simp)
    | cons c0 ct =>
      simp only [List.map_cons] at h
      injection h with h1 h2
      rcases List.mem_cons.mp hc with rfl | hct
      · exact ⟨w, List.mem_cons_self _ _, h1⟩
      · obtain ⟨w2, hw2, hres⟩ := ih ct h2 c hct
        exact ⟨w2, List.mem_cons_of_mem _ hw2, hres⟩

theorem exists_ok_list {α : Type} (f : α → Except String AnalysisNode) :
    ∀ l : List α, (∀ x ∈ l, ∃ nx, f x = .ok nx) →
    ∃ cs : List AnalysisNode, l.map f = cs.map Except.ok ∧ cs.length = l.length := by
  intro l
  induction l with
  | nil => intro _; exact ⟨[], rfl, rfl⟩
  | cons a t ih =>
    intro h
    obtain ⟨n, hn⟩ := h a (List.mem_cons_self _ _)
    obtain ⟨cs, hcs, hlen⟩ := ih (fun x hx => h x (List.mem_cons_of_mem _ hx))
    exact ⟨n :: cs, by simp [hn, hcs], by simp [hlen]⟩

mutual
theorem walk_no_folder (env : ExtractEnv) (o : Oracle) :
    (fs : FS) → ∀ path : String,
    ((analyze_folder env o path fs).calls.all (fun c => !c.isFolderCall)) = true ∧
    (∀ n, (analyze_folder env o path fs).result = .ok n → NoFolderSummary n)
  | .file r rr => by
    intro path
    cases rr with
    | error e =>
      refine ⟨rfl, ?_⟩
      intro n hn
      simp only [analyze_folder, analyze_file] at hn
      injection hn with hn
      rw [← hn]
      exact NoFolderSummary.file _
    | ok content =>
      refine ⟨rfl, ?_⟩
      intro n hn
      simp only [analyze_folder, analyze_file] at hn
      cases hg : o.goal (basename path) (strTake content 4000) with
      | error e => rw [hg] at hn; cases hn
      | ok g =>
        rw [hg] at hn
        cases hs : o.summary (basename path) (strTake content 4000) with
        | error e => rw [hs] at hn; cases hn
        | ok s =>
          rw [hs] at hn
          injection hn with hn
          rw [← hn]
          exact NoFolderSummary.file _
  | .dir r es => by
    intro path
    constructor
    · simp only [analyze_folder]
      rw [List.all_eq_true]
      intro c hc
      rw [List.mem_flatMap] at hc
      obtain ⟨w, hw, hcw⟩ := hc
      have hall := (children_no_folder env o es path w hw).1
      rw [List.all_eq_true] at hall
      exact hall c hcw
    · intro n hn
      simp only [analyze_folder] at hn
      cases hseq : seqResults ((analyzeChildren env o path es).map (fun w => w.result)) with
      | error e => rw [hseq] at hn; cases hn
      | ok cs =>
        rw [hseq] at hn
        simp only [Except.map] at hn
        injection hn with hn
        rw [← hn]
        refine NoFolderSummary.folder path (NodeList.ofList cs) ?_
        intro c hc
        rw [nodeList_toList_ofList] at hc
        obtain ⟨w, hw, hres⟩ :=
          mem_of_map_ok _ cs ((seqResults_eq_ok _ cs).mp hseq) c hc
        exact (children_no_folder env o es path w hw).2 c hres

theorem children_no_folder (env : ExtractEnv) (o : Oracle) :
    (es : EntryList) → ∀ path : String, ∀ w ∈ analyzeChildren env o path es,
    ((w.calls.all (fun c => !c.isFolderCall)) = true ∧
     (∀ n, w.result = .ok n → NoFolderSummary n))
  | .nil => by
    intro path w hw
    simp [analyzeChildren] at hw
  | .cons item child rest => by
    intro path w hw
    by_cases h1 : excludedName item = true
    · simp only [analyzeChildren, if_pos h1] at hw
      exact children_no_folder env o rest path w hw
    · simp only [analyzeChildren, if_neg h1] at hw
      by_cases h2 : readableOf child = true
      · rw [if_pos h2] at hw
        rcases List.mem_cons.mp hw with rfl | hwt
        · exact walk_no_folder env o child (pathJoin path item)
        · exact children_no_folder env o rest path w hwt
      · rw [if_neg h2] at hw
        exact children_no_folder env o rest path w hw
end

/-! ## Concrete instances used by witnesses and counterexamples -/

/-- Extraction environment with the `.py → Python` mapping of the language
table and an `ast.parse` that always reports a `SyntaxError`. -/
def demoEnv : ExtractEnv :=
  { languageMap := [(".py", "Python")]
    parsePy := fun _ => .error ()
    jsFuncMatches := fun _ => []
    jsClassMatches := fun _ => []
    jsImportMatches := fun _ => []
    htmlClassMatches := fun _ => []
    htmlLinkMatches := fun _ => [] }

/-- An oracle whose goal and summary calls always succeed. -/
def demoOracle : Oracle :=
  { goal := fun f _ => .ok ("G:" ++ f)
    summary := fun f _ => .ok ("S:" ++ f) }

/-- An oracle whose goal call always raises. -/
def boomOracle : Oracle :=
  { goal := fun _ _ => .error "oracle boom"
    summary := fun _ _ => .ok "S" }

/-- The file dictionary produced for `/r/a.py` with content `x = 1` under
`demoEnv` and `demoOracle`. -/
def demoNodeA : FileNode :=
  { file_path := "/r/a.py"
    language := some "Python"
    functions := some []
    classes := some []
    dependencies := some []
    goal := some "G:a.py"
    summary := some "S:a.py"
    file_content := some "x = 1" }

/-- A directory listing with one readable Python file. -/
def demoEntries1 : EntryList :=
  .cons "a.py" (.file true (.ok "x = 1")) .nil

/-- A directory listing with one readable Python file and one readable
empty subdirectory. -/
def demoEntries2 : EntryList :=
  .cons "a.py" (.file true (.ok "x = 1")) (.cons "sub" (.dir true .nil) .nil)

/-- The children sequence produced for `demoEntries2`. -/
def demoChildren2 : NodeList :=
  NodeList.ofList [.file demoNodeA, .folder "/r/sub" NodeList.nil none]

/-- A directory listing with one readable Python file, one excluded
directory, and one permission-denied file. -/
def demoEntries3 : EntryList :=
  .cons "a.py" (.file true (.ok "x = 1"))
    (.cons ".git" (.dir true .nil)
      (.cons "locked" (.file false (.ok "secret")) .nil))

/-- The file dictionary produced for `/r/ok.py` with content `x = 1`
under `demoEnv` and `demoOracle`. -/
def demoNodeOk : FileNode :=
  { file_path := "/r/ok.py"
    language := some "Python"
    functions := some []
    classes := some []
    dependencies := some []
    goal := some "G:ok.py"
    summary := some "S:ok.py"
    file_content := some "x = 1" }

/-- An error-carrying file dictionary: only path and error populated. -/
def demoErrFn : FileNode :=
  { file_path := "/r/bad.py"
    error := some "boom" }

/-- A result tree with an error-carrying file node and a nested folder. -/
def demoTree : AnalysisNode :=
  .folder "/r" (NodeList.ofList [.file demoErrFn,
    .folder "/r/sub" (NodeList.ofList [.file demoNodeA]) none]) none

/-! ## Claims -/

/-- C2: for every analyzed directory, the children sequence of the
resulting folder node is exactly the sequence of settled child results in
directory-enumeration order — the result list of the eligible entries'
analyses, in the order the entries were listed, equals `Except.ok` of
each child in order (so the folder is assembled only when every child's
analysis has settled successfully), and the children's recorded paths are
the joined entry names in the same enumeration order. -/
theorem children_enumeration_order (env : ExtractEnv) (o : Oracle)
    (path : String) (r : Bool) (es : EntryList) (q : String) (cs : NodeList)
    (s : Option String)
    (h : (analyze_folder env o path (.dir r es)).result = .ok (.folder q cs s)) :
    q = path ∧
    (es.toList.filter eligibleEntry).map
        (fun e => (analyze_folder env o (pathJoin path e.1) e.2).result)
      = cs.toList.map Except.ok ∧
    cs.toList.map nodePath =
      (es.toList.filter eligibleEntry).map (fun e => pathJoin path e.1) := by
  obtain ⟨hq, _, hmap⟩ := folder_result_ok env o path r es q cs s h
  exact ⟨hq, hmap, paths_of_results env o path _ _ hmap⟩

/-- C2 witness: the directory listing `[a.py, sub]` yields children
`[file node for a.py, folder node for sub]` in that order. -/
theorem children_enumeration_order_witness :
    ((analyze_folder demoEnv demoOracle "/r" (.dir true demoEntries2)).result =
      .ok (.folder "/r" demoChildren2 none)) ∧
    ("/r" = "/r" ∧
     (demoEntries2.toList.filter eligibleEntry).map
         (fun e => (analyze_folder demoEnv demoOracle (pathJoin "/r" e.1) e.2).result)
       = demoChildren2.toList.map Except.ok ∧
     demoChildren2.toList.map nodePath =
       (demoEntries2.toList.filter eligibleEntry).map (fun e => pathJoin "/r" e.1)) :=
  ⟨rfl, children_enumeration_order demoEnv demoOracle "/r" true demoEntries2
    "/r" demoChildren2 none rfl⟩

/-- C3: in every analyzed directory with a duplicate-free listing, an
entry named in the exclusion set or failing the access probe contributes
no node to the children sequence (count `0` among the children paths); a
permission-denied entry outside the exclusion set gets a skip diagnostic
without failing the walk; and every other entry appears exactly once
(count `1`). -/
theorem access_filter_spec (env : ExtractEnv) (o : Oracle) (path : String)
    (r : Bool) (es : EntryList) (q : String) (cs : NodeList) (s : Option String)
    (h : (analyze_folder env o path (.dir r es)).result = .ok (.folder q cs s))
    (hnd : (es.toList.map Prod.fst).Nodup) :
    ∀ e ∈ es.toList,
      (eligibleEntry e = true →
        (cs.toList.map nodePath).count (pathJoin path e.1) = 1) ∧
      (eligibleEntry e = false →
        (cs.toList.map nodePath).count (pathJoin path e.1) = 0) ∧
      (excludedName e.1 = false → readableOf e.2 = false →
        ("⚠️ Skipping " ++ pathJoin path e.1 ++ ": permission denied.")
          ∈ (analyze_folder env o path (.dir r es)).diags) := by
  obtain ⟨hq, hsum, hmap⟩ := folder_result_ok env o path r es q cs s h
  have hpaths := paths_of_results env o path _ _ hmap
  have hcount : ∀ nm : String, (cs.toList.map nodePath).count (pathJoin path nm)
      = ((es.toList.filter eligibleEntry).map Prod.fst).count nm := by
    intro nm
    rw [hpaths]
    have hcomp : (es.toList.filter eligibleEntry).map (fun x => pathJoin path x.1)
        = ((es.toList.filter eligibleEntry).map Prod.fst).map
            (fun s2 => pathJoin path s2) := by
      rw [List.map_map]
      rfl
    rw [hcomp]
    exact List.count_map_of_injective _ _ (pathJoin_injective path) nm
  have hfilnd : ((es.toList.filter eligibleEntry).map Prod.fst).Nodup :=
    List.Nodup.sublist (List.Sublist.map _ (List.filter_sublist _)) hnd
  intro e he
  refine ⟨?_, ?_, ?_⟩
  · intro helig
    rw [hcount e.1]
    exact List.count_eq_one_of_mem hfilnd
      (List.mem_map_of_mem Prod.fst (List.mem_filter.mpr ⟨he, helig⟩))
  · intro hnelig
    rw [hcount e.1]
    refine List.count_eq_zero_of_not_mem ?_
    intro hmem
    obtain ⟨x, hxfil, hxfst⟩ := List.mem_map.mp hmem
    obtain ⟨hxmem, hxelig⟩ := List.mem_filter.mp hxfil
    have hxe : x = e := eq_of_keys_nodup es.toList x e hnd hxmem he hxfst
    rw [hxe] at hxelig
    rw [hxelig] at hnelig
    cases hnelig
  · intro hexc hread
    simp only [analyze_folder]
    refine List.mem_append_left _ ?_
    exact mem_skipDiagList path es e.1 e.2 (by rwa [Prod.mk.eta]) hexc hread

/-- C3 witness: in the listing `[a.py, .git, locked]` with `locked`
unreadable, `a.py` appears once, `.git` and `locked` contribute nothing,
and the skip diagnostic for `locked` is emitted. -/
theorem access_filter_spec_witness :
    ((analyze_folder demoEnv demoOracle "/r" (.dir true demoEntries3)).result =
      .ok (.folder "/r" (NodeList.ofList [.file demoNodeA]) none)) ∧
    (demoEntries3.toList.map Prod.fst).Nodup ∧
    (∀ e ∈ demoEntries3.toList,
      (eligibleEntry e = true →
        ((NodeList.ofList [AnalysisNode.file demoNodeA]).toList.map nodePath).count
          (pathJoin "/r" e.1) = 1) ∧
      (eligibleEntry e = false →
        ((NodeList.ofList [AnalysisNode.file demoNodeA]).toList.map nodePath).count
          (pathJoin "/r" e.1) = 0) ∧
      (excludedName e.1 = false → readableOf e.2 = false →
        ("⚠️ Skipping " ++ pathJoin "/r" e.1 ++ ": permission denied.")
          ∈ (analyze_folder demoEnv demoOracle "/r" (.dir true demoEntries3)).diags)) :=
  ⟨rfl, by decide,
   access_filter_spec demoEnv demoOracle "/r" true demoEntries3
     "/r" (NodeList.ofList [.file demoNodeA]) none rfl (by decide)⟩

/-- C10: a directory whose listing leaves no eligible entry (empty, or
every entry excluded or unreadable) still yields a valid folder node with
an empty children sequence, no summary, and an empty oracle-call trace
(no oracle call at all is made for such a folder). -/
theorem empty_folder_no_oracle (env : ExtractEnv) (o : Oracle) (path : String)
    (r : Bool) (es : EntryList)
    (h : es.toList.filter eligibleEntry = []) :
    analyze_folder env o path (.dir r es) =
      { result := .ok (.folder path NodeList.nil none)
        calls := []
        diags := skipDiagList path es } := by
  have hch : analyzeChildren env o path es = [] := by
    rw [analyzeChildren_eq env o path es, h]
    rfl
  simp [analyze_folder, hch, seqResults, Except.map, NodeList.ofList]

/-- C10 witness: a listing holding only an excluded directory and a
permission-denied file yields the empty folder node, zero oracle calls,
and the one skip diagnostic. -/
theorem empty_folder_no_oracle_witness :
    ((EntryList.cons ".git" (.dir true .nil)
        (.cons "locked" (.file false (.ok "secret")) .nil)).toList.filter
      eligibleEntry = []) ∧
    analyze_folder demoEnv demoOracle "/r"
        (.dir true (.cons ".git" (.dir true .nil)
          (.cons "locked" (.file false (.ok "secret")) .nil))) =
      { result := .ok (.folder "/r" NodeList.nil none)
        calls := []
        diags := skipDiagList "/r" (.cons ".git" (.dir true .nil)
          (.cons "locked" (.file false (.ok "secret")) .nil)) } :=
  ⟨rfl, empty_folder_no_oracle demoEnv demoOracle "/r" true _ rfl⟩

/-- C5: a file whose read raises yields a file node populated with only
the path and the error string (every other field absent), the branch
terminates without an exception (`Except.ok`, no oracle call), and a
parent directory containing such a file among otherwise successfully
analyzed entries still completes its join normally, with the
error-carrying child at its enumeration position. -/
theorem read_error_isolated (env : ExtractEnv) (o : Oracle)
    (fpath dpath name e : String) (rd : Bool)
    (pre post : List (String × FS))
    (hname : excludedName name = false)
    (hpre : ∀ x ∈ pre.filter eligibleEntry, ∃ nx,
      (analyze_folder env o (pathJoin dpath x.1) x.2).result = .ok nx)
    (hpost : ∀ x ∈ post.filter eligibleEntry, ∃ nx,
      (analyze_folder env o (pathJoin dpath x.1) x.2).result = .ok nx) :
    analyze_file env o fpath (.error e) =
      { result := .ok (.file
          { file_path := fpath, language := none, functions := none,
            classes := none, dependencies := none, goal := none,
            summary := none, file_content := none, error := some e })
        calls := []
        diags := [] } ∧
    ∃ cs1 cs2 : List AnalysisNode,
      cs1.length = (pre.filter eligibleEntry).length ∧
      cs2.length = (post.filter eligibleEntry).length ∧
      (analyze_folder env o dpath (.dir rd (EntryList.ofList
          (pre ++ [(name, FS.file true (.error e))] ++ post)))).result =
        .ok (.folder dpath (NodeList.ofList (cs1 ++
          [.file { file_path := pathJoin dpath name, language := none,
                   functions := none, classes := none, dependencies := none,
                   goal := none, summary := none, file_content := none,
                   error := some e }] ++ cs2)) none) := by
  constructor
  · rfl
  · obtain ⟨cs1, hcs1, hlen1⟩ := exists_ok_list
      (fun x => (analyze_folder env o (pathJoin dpath x.1) x.2).result)
      (pre.filter eligibleEntry) hpre
    obtain ⟨cs2, hcs2, hlen2⟩ := exists_ok_list
      (fun x => (analyze_folder env o (pathJoin dpath x.1) x.2).result)
      (post.filter eligibleEntry) hpost
    refine ⟨cs1, cs2, hlen1, hlen2, ?_⟩
    simp only [analyze_folder]
    rw [analyzeChildren_eq env o dpath, entryList_toList_ofList, List.map_map]
    have hsplit : (pre ++ [(name, FS.file true (.error e))] ++ post).filter
        eligibleEntry
        = pre.filter eligibleEntry ++ [(name, FS.file true (.error e))]
          ++ post.filter eligibleEntry := by
      rw [List.filter_append, List.filter_append]
      simp [eligibleEntry, readableOf, hname]
    rw [hsplit, List.map_append, List.map_append]
    have hcs1c : (pre.filter eligibleEntry).map
        ((fun w => w.result) ∘ fun x => analyze_folder env o (pathJoin dpath x.1) x.2)
        = cs1.map Except.ok := hcs1
    have hcs2c : (post.filter eligibleEntry).map
        ((fun w => w.result) ∘ fun x => analyze_folder env o (pathJoin dpath x.1) x.2)
        = cs2.map Except.ok := hcs2
    have hmidc : [(name, FS.file true (.error e))].map
        ((fun w => w.result) ∘ fun x => analyze_folder env o (pathJoin dpath x.1) x.2)
        = [Except.ok (.file { file_path := pathJoin dpath name, error := some e })] :=
      rfl
    rw [hcs1c, hmidc, hcs2c]
    have hrhs : cs1.map (Except.ok : AnalysisNode → Except String AnalysisNode)
          ++ [Except.ok (AnalysisNode.file
              { file_path := pathJoin dpath name, error := some e })]
          ++ cs2.map Except.ok
        = (cs1 ++ [AnalysisNode.file
            { file_path := pathJoin dpath name, error := some e }]
            ++ cs2).map Except.ok := by
      simp [List.map_append]
    rw [hrhs, (seqResults_eq_ok _ _).mpr rfl]
    rfl

/-- C5 witness: the read-failing `bad.py` next to a readable `ok.py`
yields an error-only file node, and the parent folder completes with
both children. -/
theorem read_error_isolated_witness :
    excludedName "bad.py" = false ∧
    (analyze_file demoEnv demoOracle "/q/f.py" (.error "Permission denied") =
      { result := .ok (.file
          { file_path := "/q/f.py", language := none, functions := none,
            classes := none, dependencies := none, goal := none,
            summary := none, file_content := none,
            error := some "Permission denied" })
        calls := []
        diags := [] } ∧
    ∃ cs1 cs2 : List AnalysisNode,
      cs1.length = ([("ok.py", FS.file true (.ok "x = 1"))].filter
        eligibleEntry).length ∧
      cs2.length = (([] : List (String × FS)).filter eligibleEntry).length ∧
      (analyze_folder demoEnv demoOracle "/r" (.dir true (EntryList.ofList
          ([("ok.py", FS.file true (.ok "x = 1"))]
            ++ [("bad.py", FS.file true (.error "Permission denied"))]
            ++ [])))).result =
        .ok (.folder "/r" (NodeList.ofList (cs1 ++
          [.file { file_path := pathJoin "/r" "bad.py", language := none,
                   functions := none, classes := none, dependencies := none,
                   goal := none, summary := none, file_content := none,
                   error := some "Permission denied" }] ++ cs2)) none)) := by
  have hpre : ∀ x ∈ [("ok.py", FS.file true (.ok "x = 1"))].filter eligibleEntry,
      ∃ nx, (analyze_folder demoEnv demoOracle (pathJoin "/r" x.1) x.2).result
        = .ok nx := by
    intro x hx
    have hfe : [("ok.py", FS.file true (.ok "x = 1"))].filter eligibleEntry
        = [("ok.py", FS.file true (.ok "x = 1"))] := rfl
    rw [hfe] at hx
    rw [List.mem_singleton.mp hx]
    exact ⟨.file demoNodeOk, rfl⟩
  have hpost : ∀ x ∈ ([] : List (String × FS)).filter eligibleEntry,
      ∃ nx, (analyze_folder demoEnv demoOracle (pathJoin "/r" x.1) x.2).result
        = .ok nx := by
    intro x hx
    exact absurd hx (by simp)
  exact ⟨rfl, read_error_isolated demoEnv demoOracle "/q/f.py" "/r" "bad.py"
    "Permission denied" true [("ok.py", FS.file true (.ok "x = 1"))] []
    rfl hpre hpost⟩

/-- C9: the basic flattening yields exactly the depth-first sequence of
file dictionaries, one document per file node (so folder nodes contribute
no document of their own and counts agree), and an error-carrying file
node — whose `goal` and `summary` keys are absent — contributes a
document whose goal and summary segments are empty. -/
theorem flatten_one_doc_per_file (n : AnalysisNode) :
    flatten_analysis n = (fileNodesOf n).map docOf ∧
    (flatten_analysis n).length = (fileNodesOf n).length ∧
    (∀ fn ∈ fileNodesOf n, fn.goal = none → fn.summary = none →
      docOf fn = fn.file_path ++ "\n" ++ "\n") := by
  refine ⟨flatten_eq_node n, by rw [flatten_eq_node n, List.length_map], ?_⟩
  intro fn _ hg hs
  simp only [docOf, hg, hs, Option.getD_none]
  rw [str_append_empty, str_append_empty]

/-- C9 witness: a tree with an error-carrying file and a nested folder
flattens to one document per file node in depth-first order. -/
theorem flatten_one_doc_per_file_witness :
    flatten_analysis demoTree = (fileNodesOf demoTree).map docOf ∧
    docOf demoErrFn = "/r/bad.py" ++ "\n" ++ "\n" :=
  ⟨(flatten_one_doc_per_file demoTree).1,
   (flatten_one_doc_per_file demoTree).2.2 demoErrFn (by decide) rfl rfl⟩

/-- C1 (amended): the walker performs no folder-level oracle reduction:
for every input tree the oracle-call trace contains no
`summarize_folder` invocation, and every folder node in a successful
result carries no summary (the folder dictionary has only `folder_path`
and `children`). -/
theorem no_folder_reduction (env : ExtractEnv) (o : Oracle) (path : String)
    (fs : FS) :
    ((analyze_folder env o path fs).calls.all (fun c => !c.isFolderCall)) = true ∧
    (∀ n, (analyze_folder env o path fs).result = .ok n → NoFolderSummary n) :=
  walk_no_folder env o fs path

/-- C1 (amended) witness: on a one-file directory, the trace holds no
folder-level call and the produced folder node carries no summary. -/
theorem no_folder_reduction_witness :
    ((analyze_folder demoEnv demoOracle "/r" (.dir true demoEntries1)).calls.all
      (fun c => !c.isFolderCall)) = true ∧
    NoFolderSummary (.folder "/r" (NodeList.ofList [.file demoNodeA]) none) :=
  ⟨(no_folder_reduction demoEnv demoOracle "/r" (.dir true demoEntries1)).1,
   (no_folder_reduction demoEnv demoOracle "/r" (.dir true demoEntries1)).2 _ rfl⟩

/-- C1 counterexample: on a concrete one-file directory the walker makes
only the two file-level oracle calls — no `summarize_folder` call — and
the assembled folder node carries no summary string, contradicting the
claim that `summarize_folder` is invoked and its result stored. -/
theorem summarize_folder_counterexample :
    ((analyze_folder demoEnv demoOracle "/r" (.dir true demoEntries1)).result =
      .ok (.folder "/r" (NodeList.ofList [.file demoNodeA]) none)) ∧
    (analyze_folder demoEnv demoOracle "/r" (.dir true demoEntries1)).calls
      = [.goalCall "a.py" "x = 1", .summaryCall "a.py" "x = 1"] ∧
    ¬ ∃ cs s, (analyze_folder demoEnv demoOracle "/r" (.dir true demoEntries1)).result
      = .ok (.folder "/r" cs (some s)) := by
  refine ⟨rfl, rfl, ?_⟩
  rintro ⟨cs, s, hcontra⟩
  rw [show (analyze_folder demoEnv demoOracle "/r" (.dir true demoEntries1)).result =
      .ok (.folder "/r" (NodeList.ofList [.file demoNodeA]) none) from rfl] at hcontra
  injection hcontra with hcontra
  injection hcontra with h1 h2 h3
  exact Option.noConfusion h3

/-- C4 (amended): `analyze_file` recovers only from read exceptions. An
exception raised by the goal oracle call (or, the goal call succeeding,
by the summary call) propagates out of `analyze_file` unchanged — no
error-marker node is produced — and a parent directory joining over such
a file propagates the same exception, aborting its own assembly. -/
theorem oracle_error_propagates (env : ExtractEnv) (o : Oracle) :
    (∀ fpath content e, o.goal (basename fpath) (strTake content 4000) = .error e →
      (analyze_file env o fpath (.ok content)).result = .error e) ∧
    (∀ fpath content g e, o.goal (basename fpath) (strTake content 4000) = .ok g →
      o.summary (basename fpath) (strTake content 4000) = .error e →
      (analyze_file env o fpath (.ok content)).result = .error e) ∧
    (∀ dpath item content e, excludedName item = false →
      o.goal (basename (pathJoin dpath item)) (strTake content 4000) = .error e →
      (analyze_folder env o dpath (.dir true
        (.cons item (.file true (.ok content)) .nil))).result = .error e) := by
  refine ⟨?_, ?_, ?_⟩
  · intro fpath content e hg
    simp only [analyze_file]
    rw [hg]
  · intro fpath content g e hg hs
    simp only [analyze_file]
    rw [hg, hs]
  · intro dpath item content e hitem hg
    have hres : (analyze_folder env o (pathJoin dpath item)
        (.file true (.ok content))).result = .error e := by
      simp only [analyze_folder, analyze_file]
      rw [hg]
    simp only [analyze_folder]
    have hch : analyzeChildren env o dpath
        (.cons item (.file true (.ok content)) .nil)
        = [analyze_folder env o (pathJoin dpath item) (.file true (.ok content))] := by
      rw [analyzeChildren_eq]
      simp [EntryList.toList, eligibleEntry, readableOf, hitem]
    rw [hch, List.map_cons, List.map_nil, hres]
    rfl

/-- C4 (amended) witness: with an oracle whose goal call raises, the
exception surfaces from `analyze_file` and from the parent folder's
join. -/
theorem oracle_error_propagates_witness :
    (boomOracle.goal (basename "/r/a.py") (strTake "x = 1" 4000)
      = .error "oracle boom") ∧
    (analyze_file demoEnv boomOracle "/r/a.py" (.ok "x = 1")).result
      = .error "oracle boom" ∧
    excludedName "a.py" = false ∧
    (analyze_folder demoEnv boomOracle "/r" (.dir true
      (.cons "a.py" (.file true (.ok "x = 1")) .nil))).result
      = .error "oracle boom" :=
  ⟨rfl,
   (oracle_error_propagates demoEnv boomOracle).1 "/r/a.py" "x = 1"
     "oracle boom" rfl,
   rfl,
   (oracle_error_propagates demoEnv boomOracle).2.2 "/r" "a.py" "x = 1"
     "oracle boom" rfl rfl⟩

/-- C4 counterexample: with an oracle whose goal call raises on a concrete
file, `analyze_file` returns the propagated exception — not an ok node
with an error-marker string — and the parent folder's join does not
complete: its result is the same exception and no node exists. -/
theorem oracle_error_counterexample :
    (analyze_file demoEnv boomOracle "/r/a.py" (.ok "x = 1")).result
      = .error "oracle boom" ∧
    (analyze_folder demoEnv boomOracle "/r" (.dir true demoEntries1)).result
      = .error "oracle boom" ∧
    ¬ ∃ n, (analyze_folder demoEnv boomOracle "/r" (.dir true demoEntries1)).result
      = .ok n := by
  refine ⟨rfl, rfl, ?_⟩
  rintro ⟨n, hn⟩
  rw [show (analyze_folder demoEnv boomOracle "/r" (.dir true demoEntries1)).result
      = .error "oracle boom" from rfl] at hn
  exact Except.noConfusion hn

/-- C6: for Python-labelled content on which the precise parse raises a
`SyntaxError`, extraction falls back to the pattern heuristics
(best-effort, possibly empty, still sorted and deduplicated) instead of
propagating the failure, and the walk of such a file still completes with
an ordinary file node. -/
theorem parse_failure_fallback (env : ExtractEnv) (o : Oracle)
    (code fpath g s : String)
    (hparse : env.parsePy code = .error ())
    (hlang : detect_language env fpath = "Python")
    (hg : o.goal (basename fpath) (strTake code 4000) = .ok g)
    (hs : o.summary (basename fpath) (strTake code 4000) = .ok s) :
    extract_code_attributes env code "Python" =
      (sortedDedup (python_fallback code).1,
       sortedDedup (python_fallback code).2.1,
       sortedDedup (python_fallback code).2.2) ∧
    (analyze_file env o fpath (.ok code)).result =
      .ok (.file
        { file_path := fpath
          language := some "Python"
          functions := some (sortedDedup (python_fallback code).1)
          classes := some (sortedDedup (python_fallback code).2.1)
          dependencies := some (sortedDedup (python_fallback code).2.2)
          goal := some g
          summary := some s
          file_content := some (strTake code 2000) }) := by
  have hext : extract_code_attributes env code "Python" =
      (sortedDedup (python_fallback code).1,
       sortedDedup (python_fallback code).2.1,
       sortedDedup (python_fallback code).2.2) := by
    simp [extract_code_attributes, raw_extract, extract_python, hparse]
  refine ⟨hext, ?_⟩
  simp only [analyze_file, hlang, hext, hg, hs]

/-- C6 witness: `def a(:` fails the precise parse; the heuristic fallback
still extracts `a`, and the walk of the file completes. -/
theorem parse_failure_fallback_witness :
    demoEnv.parsePy "def a(:" = .error () ∧
    detect_language demoEnv "/r/a.py" = "Python" ∧
    demoOracle.goal (basename "/r/a.py") (strTake "def a(:" 4000)
      = .ok "G:a.py" ∧
    demoOracle.summary (basename "/r/a.py") (strTake "def a(:" 4000)
      = .ok "S:a.py" ∧
    (extract_code_attributes demoEnv "def a(:" "Python" =
      (sortedDedup (python_fallback "def a(:").1,
       sortedDedup (python_fallback "def a(:").2.1,
       sortedDedup (python_fallback "def a(:").2.2) ∧
    (analyze_file demoEnv demoOracle "/r/a.py" (.ok "def a(:")).result =
      .ok (.file
        { file_path := "/r/a.py"
          language := some "Python"
          functions := some (sortedDedup (python_fallback "def a(:").1)
          classes := some (sortedDedup (python_fallback "def a(:").2.1)
          dependencies := some (sortedDedup (python_fallback "def a(:").2.2)
          goal := some "G:a.py"
          summary := some "S:a.py"
          file_content := some (strTake "def a(:" 2000) })) :=
  ⟨rfl, rfl, rfl, rfl,
   parse_failure_fallback demoEnv demoOracle "def a(:" "/r/a.py"
     "G:a.py" "S:a.py" rfl rfl rfl rfl⟩

/-- C7: for every content and language label the extracted functions,
classes and dependencies are strictly sorted (Python string order) and
duplicate-free, and the output depends only on the multiset of raw
declaration matches: two inputs whose raw extractions are permutations of
one another yield identical extraction output. -/
theorem extraction_sorted_dedup (env env2 : ExtractEnv)
    (code language code2 language2 : String)
    (hf : List.Perm (raw_extract env code language).1
      (raw_extract env2 code2 language2).1)
    (hc : List.Perm (raw_extract env code language).2.1
      (raw_extract env2 code2 language2).2.1)
    (hi : List.Perm (raw_extract env code language).2.2
      (raw_extract env2 code2 language2).2.2) :
    ((extract_code_attributes env code language).1.Sorted strLtP ∧
     (extract_code_attributes env code language).1.Nodup) ∧
    ((extract_code_attributes env code language).2.1.Sorted strLtP ∧
     (extract_code_attributes env code language).2.1.Nodup) ∧
    ((extract_code_attributes env code language).2.2.Sorted strLtP ∧
     (extract_code_attributes env code language).2.2.Nodup) ∧
    extract_code_attributes env code language
      = extract_code_attributes env2 code2 language2 := by
  refine ⟨sortedDedup_sorted_nodup _, sortedDedup_sorted_nodup _,
    sortedDedup_sorted_nodup _, ?_⟩
  show (sortedDedup (raw_extract env code language).1,
      sortedDedup (raw_extract env code language).2.1,
      sortedDedup (raw_extract env code language).2.2)
    = (sortedDedup (raw_extract env2 code2 language2).1,
      sortedDedup (raw_extract env2 code2 language2).2.1,
      sortedDedup (raw_extract env2 code2 language2).2.2)
  rw [sortedDedup_eq_of_perm hf, sortedDedup_eq_of_perm hc,
    sortedDedup_eq_of_perm hi]

/-- C7 witness: the same two definitions in either order extract to the
identical sorted, deduplicated output `["a", "b"]`. -/
theorem extraction_sorted_dedup_witness :
    List.Perm (raw_extract demoEnv "def b():\n  pass\ndef a():\n  pass" "Python").1
      (raw_extract demoEnv "def a():\n  pass\ndef b():\n  pass" "Python").1 ∧
    List.Perm (raw_extract demoEnv "def b():\n  pass\ndef a():\n  pass" "Python").2.1
      (raw_extract demoEnv "def a():\n  pass\ndef b():\n  pass" "Python").2.1 ∧
    List.Perm (raw_extract demoEnv "def b():\n  pass\ndef a():\n  pass" "Python").2.2
      (raw_extract demoEnv "def a():\n  pass\ndef b():\n  pass" "Python").2.2 ∧
    (((extract_code_attributes demoEnv "def b():\n  pass\ndef a():\n  pass"
        "Python").1.Sorted strLtP ∧
      (extract_code_attributes demoEnv "def b():\n  pass\ndef a():\n  pass"
        "Python").1.Nodup) ∧
     ((extract_code_attributes demoEnv "def b():\n  pass\ndef a():\n  pass"
        "Python").2.1.Sorted strLtP ∧
      (extract_code_attributes demoEnv "def b():\n  pass\ndef a():\n  pass"
        "Python").2.1.Nodup) ∧
     ((extract_code_attributes demoEnv "def b():\n  pass\ndef a():\n  pass"
        "Python").2.2.Sorted strLtP ∧
      (extract_code_attributes demoEnv "def b():\n  pass\ndef a():\n  pass"
        "Python").2.2.Nodup) ∧
     extract_code_attributes demoEnv "def b():\n  pass\ndef a():\n  pass" "Python"
      = extract_code_attributes demoEnv "def a():\n  pass\ndef b():\n  pass"
          "Python") :=
  ⟨by decide, by decide, by decide,
   extraction_sorted_dedup demoEnv demoEnv
     "def b():\n  pass\ndef a():\n  pass" "Python"
     "def a():\n  pass\ndef b():\n  pass" "Python"
     (by decide) (by decide) (by decide)⟩

/-- The file dictionary produced for `/r/a.py` with the one-character
content `x` under `demoEnv` and `demoOracle`. -/
def demoNodeX : FileNode :=
  { file_path := "/r/a.py"
    language := some "Python"
    functions := some []
    classes := some []
    dependencies := some []
    goal := some "G:a.py"
    summary := some "S:a.py"
    file_content := some "x" }

/-- C8 (amended): for a successfully read and summarized file, the stored
content snippet is the content truncated to the 2000-character cap — an
initial segment of the content, equal to the whole content when it fits
within the cap and a strict initial segment exactly when the content
exceeds the cap — while the content handed to the oracle is truncated to
the separate, larger 4000-character cap, of which the snippet is itself a
truncation. -/
theorem snippet_caps (env : ExtractEnv) (o : Oracle) (fpath content : String)
    (fn : FileNode)
    (h : (analyze_file env o fpath (.ok content)).result = .ok (.file fn)) :
    fn.file_content = some (strTake content 2000) ∧
    headSegment (strTake content 2000) content ∧
    (strTake content 2000).length ≤ 2000 ∧
    (content.length ≤ 2000 → strTake content 2000 = content) ∧
    (2000 < content.length → strictHeadSegment (strTake content 2000) content) ∧
    (analyze_file env o fpath (.ok content)).calls =
      [.goalCall (basename fpath) (strTake content 4000),
       .summaryCall (basename fpath) (strTake content 4000)] ∧
    headSegment (strTake content 4000) content ∧
    strTake (strTake content 4000) 2000 = strTake content 2000 := by
  have hfc : fn.file_content = some (strTake content 2000) := by
    simp only [analyze_file] at h
    cases hg : o.goal (basename fpath) (strTake content 4000) with
    | error e => rw [hg] at h; cases h
    | ok g =>
      rw [hg] at h
      cases hs : o.summary (basename fpath) (strTake content 4000) with
      | error e => rw [hs] at h; cases h
      | ok s =>
        rw [hs] at h
        injection h with h
        injection h with h
        rw [← h]
  refine ⟨hfc, strTake_headSegment content 2000, ?_, ?_, ?_, rfl,
    strTake_headSegment content 4000, ?_⟩
  · rw [strTake_length]
    exact min_le_left _ _
  · exact fun hle => strTake_of_length_le content 2000 hle
  · exact fun hlt => ⟨strTake_headSegment content 2000,
      strTake_ne_of_lt_length content 2000 hlt⟩
  · rw [strTake_strTake]
    norm_num

/-- C8 (amended) witness: for the one-character content `x` the snippet
is the whole content and the caps behave as stated. -/
theorem snippet_caps_witness :
    ((analyze_file demoEnv demoOracle "/r/a.py" (.ok "x")).result =
      .ok (.file demoNodeX)) ∧
    (demoNodeX.file_content = some (strTake "x" 2000) ∧
     headSegment (strTake "x" 2000) "x" ∧
     (strTake "x" 2000).length ≤ 2000 ∧
     ("x".length ≤ 2000 → strTake "x" 2000 = "x") ∧
     (2000 < "x".length → strictHeadSegment (strTake "x" 2000) "x") ∧
     (analyze_file demoEnv demoOracle "/r/a.py" (.ok "x")).calls =
       [.goalCall (basename "/r/a.py") (strTake "x" 4000),
        .summaryCall (basename "/r/a.py") (strTake "x" 4000)] ∧
     headSegment (strTake "x" 4000) "x" ∧
     strTake (strTake "x" 4000) 2000 = strTake "x" 2000) :=
  ⟨rfl, snippet_caps demoEnv demoOracle "/r/a.py" "x" demoNodeX rfl⟩

/-- C8 counterexample: for the one-character file content `x` the stored
snippet equals the entire content, so it is not a strict (proper) prefix
of the file's content as the claim universally asserts. -/
theorem snippet_strictness_counterexample :
    (analyze_file demoEnv demoOracle "/r/a.py" (.ok "x")).result =
      .ok (.file demoNodeX) ∧
    demoNodeX.file_content = some "x" ∧
    ¬ strictHeadSegment "x" "x" := by
  refine ⟨rfl, rfl, ?_⟩
  intro hcontra
  exact hcontra.2 rfl
